import Mathlib

/-!
Shallow embedding of `src/lib/testresultlog/testmatrixcreator.py`
(class `TestEnvMatrixCreator`).

Python strings are modelled as `List Char`; Python's `str.find` and slice
operators are modelled by `pyFind` / `pySlice` / `pySliceFrom` with Python's
exact clamping and negative-index semantics.  Python dictionaries built by the
module (insertion-ordered, string keys, list-of-strings values) are modelled
as association lists (`PyDict`) with an in-place append-or-insert update.
`KeyError` is modelled by `Option` (`none` = the subscript raised).  The file
system is modelled as a map from paths to contents; `open(path, mode)`
semantics is `pyOpenContents`.  `subprocess.run` is modelled as an oracle
function from an argument vector to a completed process.
-/

/-- Python index normalisation for a slice bound `i` against length `n`:
negative indices count from the end, then the result is clamped to `[0, n]`. -/
def pyIdx (n : Nat) (i : Int) : Nat :=
  if i < 0 then
    (if i + n < 0 then 0 else min (i + n).toNat n)
  else min i.toNat n

/-- Python slice `s[a:b]` (step 1). -/
def pySlice (s : List Char) (a b : Int) : List Char :=
  (s.drop (pyIdx s.length a)).take (pyIdx s.length b - pyIdx s.length a)

/-- Python slice `s[a:]` (open right end). -/
def pySliceFrom (s : List Char) (a : Int) : List Char :=
  s.drop (pyIdx s.length a)

/-- Python `s.find(c)` for a single-character needle: index of the first
occurrence, `-1` if absent. -/
def pyFind (s : List Char) (c : Char) : Int :=
  match List.findIdx? (fun x => x == c) s with
  | some i => (i : Int)
  | none => -1

namespace TestEnvMatrixCreator

/-- A node of a `unittest` test tree: either a plain test (identified by its
`str(test)` rendering) or a `TestSuite` holding a list of child nodes. -/
inductive TestNode where
  | test : List Char → TestNode
  | suite : List TestNode → TestNode

/-- Embeds `unittest.suite._isnotsuite`: true exactly on non-suite leaves. -/
def isnotsuite : TestNode → Bool
  | .test _ => true
  | .suite _ => false

/-- `_generate_flat_list_of_test_module_function(test_suite)`: iterate the
children of a suite, yielding each non-suite test and recursing into each
sub-suite, yielding its elements in order. -/
def generate_flat_list_of_test_module_function : List TestNode → List TestNode
  | [] => []
  | TestNode.test s :: rest =>
    TestNode.test s :: generate_flat_list_of_test_module_function rest
  | TestNode.suite children :: rest =>
    generate_flat_list_of_test_module_function children ++
      generate_flat_list_of_test_module_function rest

/-- `_get_test_module_name(test)`: `test[test.find("(")+1:test.find(")")]`
(the debug `print` is a pure console side effect and is dropped). -/
def get_test_module_name (test : List Char) : List Char :=
  pySlice test (pyFind test '(' + 1) (pyFind test ')')

/-- `_get_test_function_name(test)`: `test[0:test.find("(")-1]`. -/
def get_test_function_name (test : List Char) : List Char :=
  pySlice test 0 (pyFind test '(' - 1)

/-- `_get_test_module_name_from_key(key)`: `key[0:key.find(".")]`. -/
def get_test_module_name_from_key (key : List Char) : List Char :=
  pySlice key 0 (pyFind key '.')

/-- `_get_test_class_name_from_key(key)`: `key[key.find(".")+1:]`. -/
def get_test_class_name_from_key (key : List Char) : List Char :=
  pySliceFrom key (pyFind key '.' + 1)

/-- The dictionary `{'testcasename': …, 'testresult': …, 'testlog': …}`
built by `_create_testcase_list`. -/
structure TestcaseDict where
  testcasename : List Char
  testresult : List Char
  testlog : List Char
deriving DecidableEq

/-- The dictionary `{'testsuitename': …, 'testcase': …}` built by
`_create_testsuite_testcase_list`. -/
structure TestsuiteDict where
  testsuitename : List Char
  testcase : List TestcaseDict
deriving DecidableEq

/-- The top-level object `{'testsuite': […]}`. -/
structure TestsuiteJsonObject where
  testsuite : List TestsuiteDict
deriving DecidableEq

/-- An insertion-ordered Python dict with string keys and list-of-string
values, as an association list. -/
abbrev PyDict := List (List Char × List (List Char))

/-- Python `d[key]` on a `PyDict`: `none` models a raised `KeyError`. -/
def dictLookup : PyDict → List Char → Option (List (List Char))
  | [], _ => none
  | (k, v) :: rest, key => if k = key then some v else dictLookup rest key

/-- The update pattern used by both dictionary builders:
`d[key].append(val)` when `key` is present, else `d[key] = [val]`. -/
def dictAppendValue : PyDict → List Char → List Char → PyDict
  | [], key, val => [(key, [val])]
  | (k, v) :: rest, key, val =>
    if k = key then (k, v ++ [val]) :: rest
    else (k, v) :: dictAppendValue rest key val

/-- The list of values stored under `key` (empty when the key is absent). -/
def dictValues (d : PyDict) (key : List Char) : List (List Char) :=
  (dictLookup d key).getD []

/-- Total number of values stored across all keys of a `PyDict`. -/
def dictSizeTotal (d : PyDict) : Nat :=
  (d.map (fun p => p.2.length)).sum

/-- `_create_testcase_list(testcase_list, testsuite_name)`: one dictionary
per test case, with `testcasename = '%s.%s' % (testsuite_name, testcase)`
and empty `testresult` / `testlog`. -/
def create_testcase_list : List (List Char) → List Char → List TestcaseDict
  | [], _ => []
  | tc :: rest, suite =>
    ⟨suite ++ '.' :: tc, [], []⟩ :: create_testcase_list rest suite

/-- `_create_testsuite_testcase_list(testsuite_list, test_module_func_dict)`:
builds `{'testsuite': […]}` with one entry per suite name; the subscript
`test_module_func_dict[testsuite]` may raise `KeyError`, modelled by `none`. -/
def create_testsuite_testcase_list : List (List Char) → PyDict → Option TestsuiteJsonObject
  | [], _ => some ⟨[]⟩
  | s :: rest, d =>
    match dictLookup d s with
    | none => none
    | some tcl =>
      match create_testsuite_testcase_list rest d with
      | none => none
      | some j => some ⟨⟨s, create_testcase_list tcl s⟩ :: j.testsuite⟩

/-- `generate_test_moduleclass_key_test_function_value_dictionary`:
group the module-name slice of each test string to its function-name slice. -/
def generate_test_moduleclass_key_test_function_value_dictionary
    (test_module_function_list : List (List Char)) : PyDict :=
  test_module_function_list.foldl
    (fun d t => dictAppendValue d (get_test_module_name t) (get_test_function_name t)) []

/-- `generate_test_module_key_test_moduleclass_value_dictionary`:
group each `module.Class` key under its module part, storing
`'%s.%s' % (module_name, class_name)`. -/
def generate_test_module_key_test_moduleclass_value_dictionary
    (module_class_list : List (List Char)) : PyDict :=
  module_class_list.foldl
    (fun d mc => dictAppendValue d (get_test_module_name_from_key mc)
      (get_test_module_name_from_key mc ++ '.' :: get_test_class_name_from_key mc)) []

/-- Modelled from the spec: `TestEnvMatrixJsonEncoder.start_encode` lives in
`testresultlog/testmatrixjsonencoder.py`, which is not under src/; per the
spec the module "serializes that structure to JSON".  Concrete JSON rendering
of a test-case dictionary. -/
def encode_testcase (t : TestcaseDict) : List Char :=
  "\x7b\"testcasename\": \"".toList ++ t.testcasename ++
    "\", \"testresult\": \"".toList ++ t.testresult ++
    "\", \"testlog\": \"".toList ++ t.testlog ++ "\"\x7d".toList

/-- Modelled from the spec (see `encode_testcase`): JSON rendering of a
test-suite dictionary. -/
def encode_testsuite (s : TestsuiteDict) : List Char :=
  "\x7b\"testsuitename\": \"".toList ++ s.testsuitename ++
    "\", \"testcase\": [".toList ++
    List.intercalate ", ".toList (s.testcase.map encode_testcase) ++ "]\x7d".toList

/-- Modelled from the spec (see `encode_testcase`): `start_encode` turns the
whole nested structure into a single JSON string. -/
def start_encode (j : TestsuiteJsonObject) : List Char :=
  "\x7b\"testsuite\": [".toList ++
    List.intercalate ", ".toList (j.testsuite.map encode_testsuite) ++ "]\x7d".toList

/-- `generate_testsuite_testcase_json_data_structure(testsuites_list,
test_module_func_dict)`: build the nested structure and encode it. -/
def generate_testsuite_testcase_json_data_structure
    (testsuites_list : List (List Char)) (test_module_func_dict : PyDict) :
    Option (List Char) :=
  (create_testsuite_testcase_list testsuites_list test_module_func_dict).map start_encode

/-- The file system: a map from paths to file contents. -/
abbrev FileSystem := List Char → List Char

/-- Python `open(path, mode)` initial handle contents: mode `'w'` truncates,
mode `'a'` keeps the existing contents (writes are appended). -/
def pyOpenContents (mode : Char) (existing : List Char) : List Char :=
  if mode = 'w' then [] else existing

/-- `write_testsuite_testcase_json_data_structure_to_file(file_path,
file_content)`: `open(file_path, 'a')` followed by one `write(file_content)`. -/
def write_testsuite_testcase_json_data_structure_to_file
    (fs : FileSystem) (file_path file_content : List Char) : FileSystem :=
  fun p =>
    if p = file_path then pyOpenContents 'a' (fs file_path) ++ file_content
    else fs p

/-- The write events performed by one call of
`write_testsuite_testcase_json_data_structure_to_file`: exactly one
`(path, content)` write. -/
def write_events (file_path file_content : List Char) : List (List Char × List Char) :=
  [(file_path, file_content)]

/-- Replay a list of append-mode write events against a file system. -/
def apply_write_events (fs : FileSystem) (evs : List (List Char × List Char)) : FileSystem :=
  evs.foldl (fun f e => fun p => if p = e.1 then pyOpenContents 'a' (f e.1) ++ e.2 else f p) fs

/-- The result object of `subprocess.run`. -/
structure CompletedProcess where
  args : List (List Char)
  returncode : Int

/-- `push_testsuite_testcase_json_file_to_git_repo(file_dir, git_repo)`:
`return subprocess.run(["oe-git-archive", file_dir, "-g", git_repo])`.
The file system is threaded through unchanged (the body performs no file
operation); the third component records the argument vectors of the external
commands invoked. -/
def push_testsuite_testcase_json_file_to_git_repo
    (fs : FileSystem) (subprocess_run : List (List Char) → CompletedProcess)
    (file_dir git_repo : List Char) :
    FileSystem × CompletedProcess × List (List (List Char)) :=
  (fs, subprocess_run ["oe-git-archive".toList, file_dir, "-g".toList, git_repo],
    [["oe-git-archive".toList, file_dir, "-g".toList, git_repo]])

mutual

/-- Spec-side description for C5: the non-suite leaves of a node, depth-first
left-to-right. -/
def spec_dfs_leaves : TestNode → List TestNode
  | .test s => [.test s]
  | .suite children => spec_dfs_leaves_list children

/-- Spec-side description for C5 on a list of sibling nodes. -/
def spec_dfs_leaves_list : List TestNode → List TestNode
  | [] => []
  | t :: ts => spec_dfs_leaves t ++ spec_dfs_leaves_list ts

end

end TestEnvMatrixCreator

/-! ### Helper lemmas on the Python string primitives -/

theorem pyIdx_coe (n k : Nat) : pyIdx n (k : Int) = min k n := by
  unfold pyIdx
  split <;> omega

theorem pyIdx_neg (n k : Nat) (hk : 0 < k) : pyIdx n (-(k : Int)) = n - k := by
  unfold pyIdx
  split
  · split <;> omega
  · omega

theorem pySlice_zero_coe (s : List Char) (b : Nat) : pySlice s 0 (b : Int) = s.take b := by
  unfold pySlice
  rw [show ((0 : Int)) = ((0 : Nat) : Int) from rfl, pyIdx_coe, pyIdx_coe]
  simp only [Nat.zero_min, List.drop_zero, Nat.sub_zero]
  exact List.take_eq_take.mpr (by omega)

theorem pySliceFrom_coe (s : List Char) (a : Nat) : pySliceFrom s (a : Int) = s.drop a := by
  unfold pySliceFrom
  rw [pyIdx_coe]
  rcases Nat.le_total a s.length with h | h
  · rw [min_eq_left h]
  · rw [min_eq_right h, List.drop_eq_nil_of_le le_rfl, List.drop_eq_nil_of_le h]

theorem findIdx?_cons_eq (p : Char → Bool) (x : Char) (l : List Char) :
    List.findIdx? p (x :: l) = if p x then some 0 else (List.findIdx? p l).map (· + 1) := by
  simp [List.findIdx?_cons]

theorem findIdx?_eq_none_of (p : Char → Bool) (l : List Char)
    (h : ∀ x ∈ l, p x = false) : List.findIdx? p l = none := by
  rw [List.findIdx?_eq_none_iff]
  intro x hx
  simp [h x hx]

theorem findIdx?_append_of_none (p : Char → Bool) :
    ∀ (l₁ l₂ : List Char), (∀ x ∈ l₁, p x = false) →
      List.findIdx? p (l₁ ++ l₂) = (List.findIdx? p l₂).map (fun i => i + l₁.length) := by
  intro l₁
  induction l₁ with
  | nil => intro l₂ _; cases h₂ : List.findIdx? p l₂ <;> simp [h₂]
  | cons x xs ih =>
    intro l₂ h
    rw [List.cons_append, findIdx?_cons_eq, h x (by simp), if_neg (by simp),
      ih l₂ (fun y hy => h y (by simp [hy]))]
    cases h₂ : List.findIdx? p l₂ <;> simp [h₂] <;> omega

theorem findIdx?_some_lt_length {p : Char → Bool} :
    ∀ {l : List Char} {i : Nat}, List.findIdx? p l = some i → i < l.length := by
  intro l
  induction l with
  | nil => intro i h; simp [List.findIdx?] at h
  | cons x xs ih =>
    intro i h
    rw [findIdx?_cons_eq] at h
    split at h
    · cases h; simp
    · cases h₂ : List.findIdx? p xs with
      | none => rw [h₂] at h; simp at h
      | some j =>
        rw [h₂] at h
        simp at h
        have := ih h₂
        simp [← h]
        omega

theorem findIdx?_some_get {p : Char → Bool} :
    ∀ {l : List Char} {i : Nat} (h : List.findIdx? p l = some i) (hlt : i < l.length),
      p (l.get ⟨i, hlt⟩) = true := by
  intro l
  induction l with
  | nil => intro i h; simp [List.findIdx?] at h
  | cons x xs ih =>
    intro i h hlt
    rw [findIdx?_cons_eq] at h
    split at h
    · cases h
      simpa
    · cases h₂ : List.findIdx? p xs with
      | none => rw [h₂] at h; simp at h
      | some j =>
        rw [h₂] at h
        simp at h
        subst h
        exact ih h₂ (by simpa using hlt)

theorem findIdx?_isSome_of_mem {c : Char} {l : List Char} (h : c ∈ l) :
    ∃ j, List.findIdx? (fun x => x == c) l = some j := by
  cases hfi : List.findIdx? (fun x => x == c) l with
  | some j => exact ⟨j, rfl⟩
  | none =>
    exfalso
    rw [List.findIdx?_eq_none_iff] at hfi
    exact absurd (hfi c h) (by simp)

open TestEnvMatrixCreator

/-! ### Claim theorems -/

/-- Claim C10: the string-slicing helpers are total Lean functions (they
always return a string); for an input with no `'('`, `_get_test_function_name`
returns the input minus its last two characters (`find` returns `-1`, so the
slice is `[0:-2]`), and `_get_test_module_name` returns the prefix up to the
first `')'`, or the input minus its last character when `')'` is absent. -/
theorem slicing_helpers_no_paren (s : List Char) (h : '(' ∉ s) :
    get_test_function_name s = s.take (s.length - 2) ∧
    get_test_module_name s =
      (match List.findIdx? (fun x => x == ')') s with
       | some j => s.take j
       | none => s.take (s.length - 1)) := by
  have hnone : List.findIdx? (fun x => x == '(') s = none := by
    apply findIdx?_eq_none_of
    intro x hx
    have hne : x ≠ '(' := fun e => h (e ▸ hx)
    simpa using hne
  have hfind : pyFind s '(' = -1 := by
    unfold pyFind
    rw [hnone]
  constructor
  · unfold get_test_function_name
    rw [hfind, show (-1 : Int) - 1 = -((2 : Nat) : Int) from by norm_num]
    unfold pySlice
    rw [show ((0 : Int)) = ((0 : Nat) : Int) from rfl, pyIdx_coe,
      pyIdx_neg _ _ (by norm_num)]
    simp
  · unfold get_test_module_name
    rw [hfind]
    cases hj : List.findIdx? (fun x => x == ')') s with
    | some j =>
      have hpj : pyFind s ')' = (j : Int) := by
        unfold pyFind
        rw [hj]
      rw [hpj, show (-1 : Int) + 1 = ((0 : Nat) : Int) from by norm_num]
      simpa using pySlice_zero_coe s j
    | none =>
      have hpj : pyFind s ')' = -1 := by
        unfold pyFind
        rw [hj]
      rw [hpj, show (-1 : Int) + 1 = ((0 : Nat) : Int) from by norm_num]
      unfold pySlice
      rw [pyIdx_coe, show (-1 : Int) = -((1 : Nat) : Int) from by norm_num,
        pyIdx_neg _ _ (by norm_num)]
      simp

/-- Witness for C10 at the concrete input `"ab)c"`. -/
theorem slicing_helpers_no_paren_witness :
    '(' ∉ (['a', 'b', ')', 'c'] : List Char) ∧
    (get_test_function_name ['a', 'b', ')', 'c'] =
        (['a', 'b', ')', 'c'] : List Char).take ((['a', 'b', ')', 'c'] : List Char).length - 2) ∧
      get_test_module_name ['a', 'b', ')', 'c'] =
        (match List.findIdx? (fun x => x == ')') (['a', 'b', ')', 'c'] : List Char) with
         | some j => (['a', 'b', ')', 'c'] : List Char).take j
         | none => (['a', 'b', ')', 'c'] : List Char).take ((['a', 'b', ')', 'c'] : List Char).length - 1))) :=
  ⟨by decide, slicing_helpers_no_paren ['a', 'b', ')', 'c'] (by decide)⟩

/-- Claim C3 as stated is false: the test string `") (m.C)"` is of the form
`'<function> (<module>.<Class>)'` with function part `")"` (which contains no
`'('`) and parenthesized part `"m.C"` (no nested parentheses), yet
`_get_test_module_name` returns `""` rather than `"m.C"`, because the first
`')'` of the whole string lies before the `'('`. -/
theorem parse_conventional_counterexample :
    (([')'] : List Char) ++ ' ' :: '(' :: (['m', '.', 'C'] ++ [')'])) =
        [')', ' ', '(', 'm', '.', 'C', ')'] ∧
    '(' ∉ (([')'] : List Char)) ∧
    '(' ∉ ((['m', '.', 'C'] : List Char)) ∧ ')' ∉ ((['m', '.', 'C'] : List Char)) ∧
    get_test_module_name [')', ' ', '(', 'm', '.', 'C', ')'] = [] ∧
    ([] : List Char) ≠ ['m', '.', 'C'] := by
  refine ⟨rfl, by decide, by decide, by decide, ?_, by decide⟩
  decide

/-- Claim C3 (amended): for a test string `'<function> (<module>.<Class>)'`
whose function part contains neither `'('` nor `')'` and whose parenthesized
part contains no parentheses, `_get_test_module_name` returns the part between
the first `'('` and the first `')'` (the `'<module>.<Class>'` part) and
`_get_test_function_name` returns the function part (the prefix with the
trailing space removed). -/
theorem parse_conventional (f m : List Char)
    (hf1 : '(' ∉ f) (hf2 : ')' ∉ f) (hm1 : '(' ∉ m) (hm2 : ')' ∉ m) :
    get_test_module_name (f ++ ' ' :: '(' :: (m ++ [')'])) = m ∧
    get_test_function_name (f ++ ' ' :: '(' :: (m ++ [')'])) = f := by
  have hfind1 : List.findIdx? (fun x => x == '(') (f ++ ' ' :: '(' :: (m ++ [')'])) =
      some (f.length + 1) := by
    rw [findIdx?_append_of_none _ f _ (fun x hx => by
      have hne : x ≠ '(' := fun e => hf1 (e ▸ hx)
      simpa using hne)]
    have h2 : List.findIdx? (fun x => x == '(') (' ' :: '(' :: (m ++ [')'])) = some 1 := by
      rw [findIdx?_cons_eq, if_neg (by decide), findIdx?_cons_eq, if_pos (by decide)]
      rfl
    rw [h2]
    simp [Nat.add_comm]
  have hfind2 : List.findIdx? (fun x => x == ')') (f ++ ' ' :: '(' :: (m ++ [')'])) =
      some (f.length + 2 + m.length) := by
    have hassoc : f ++ ' ' :: '(' :: (m ++ [')']) = (f ++ [' ', '(']) ++ (m ++ [')']) := by
      simp
    rw [hassoc, findIdx?_append_of_none _ (f ++ [' ', '(']) _ (fun x hx => by
      rcases List.mem_append.mp hx with hxf | hxp
      · have hne : x ≠ ')' := fun e => hf2 (e ▸ hxf)
        simpa using hne
      · simp at hxp
        rcases hxp with rfl | rfl <;> decide)]
    rw [findIdx?_append_of_none _ m _ (fun x hx => by
      have hne : x ≠ ')' := fun e => hm2 (e ▸ hx)
      simpa using hne)]
    rw [show List.findIdx? (fun x => x == ')') [')'] = some 0 from by
      rw [findIdx?_cons_eq, if_pos (by decide)]]
    simp only [Option.map_some', List.length_append, List.length_cons, List.length_nil,
      Option.some.injEq]
    omega
  have hM : pyFind (f ++ ' ' :: '(' :: (m ++ [')'])) '(' = ((f.length + 1 : Nat) : Int) := by
    unfold pyFind
    rw [hfind1]
  have hP : pyFind (f ++ ' ' :: '(' :: (m ++ [')'])) ')' =
      ((f.length + 2 + m.length : Nat) : Int) := by
    unfold pyFind
    rw [hfind2]
  have hlen : (f ++ ' ' :: '(' :: (m ++ [')'])).length = f.length + 2 + m.length + 1 := by
    simp only [List.length_append, List.length_cons, List.length_nil]
    omega
  constructor
  · unfold get_test_module_name
    rw [hM, hP, show ((f.length + 1 : Nat) : Int) + 1 = ((f.length + 2 : Nat) : Int) from by
      push_cast
      ring]
    unfold pySlice
    rw [pyIdx_coe, pyIdx_coe, hlen, min_eq_left (by omega), min_eq_left (by omega)]
    have hdrop : (f ++ ' ' :: '(' :: (m ++ [')'])).drop (f.length + 2) = m ++ [')'] := by
      rw [show f ++ ' ' :: '(' :: (m ++ [')']) = (f ++ [' ', '(']) ++ (m ++ [')']) from by simp,
        List.drop_left' (by simp)]
    rw [hdrop, show f.length + 2 + m.length - (f.length + 2) = m.length from by omega]
    exact List.take_left' rfl
  · unfold get_test_function_name
    rw [hM, show ((f.length + 1 : Nat) : Int) - 1 = ((f.length : Nat) : Int) from by
      push_cast
      ring]
    rw [pySlice_zero_coe]
    exact List.take_left' rfl

theorem dictLookup_dictAppendValue :
    ∀ (d : PyDict) (key val k : List Char),
      dictLookup (dictAppendValue d key val) k =
        if k = key then some (dictValues d key ++ [val]) else dictLookup d k := by
  intro d key val k
  induction d with
  | nil =>
    by_cases h : k = key
    · subst h
      simp [dictAppendValue, dictLookup, dictValues]
    · rw [if_neg h]
      show (if key = k then some [val] else dictLookup [] k) = dictLookup [] k
      rw [if_neg (fun e => h e.symm)]
  | cons p rest ih =>
    obtain ⟨k0, v0⟩ := p
    show dictLookup
        (if k0 = key then (k0, v0 ++ [val]) :: rest
         else (k0, v0) :: dictAppendValue rest key val) k = _
    by_cases h0 : k0 = key
    · rw [if_pos h0]
      subst h0
      show (if k0 = k then some (v0 ++ [val]) else dictLookup rest k) = _
      by_cases h : k = k0
      · subst h
        rw [if_pos rfl, if_pos rfl]
        simp [dictValues, dictLookup]
      · rw [if_neg (fun e => h e.symm), if_neg h]
        show _ = (if k0 = k then some v0 else dictLookup rest k)
        rw [if_neg (fun e => h e.symm)]
    · rw [if_neg h0]
      show (if k0 = k then some v0 else dictLookup (dictAppendValue rest key val) k) = _
      by_cases h : k0 = k
      · rw [if_pos h, if_neg (fun e => h0 (by rw [h, e])),
          show dictLookup ((k0, v0) :: rest) k = if k0 = k then some v0 else dictLookup rest k
            from rfl,
          if_pos h]
      · rw [if_neg h, ih]
        by_cases hk : k = key
        · rw [if_pos hk, if_pos hk,
            show dictValues ((k0, v0) :: rest) key = dictValues rest key from by
              unfold dictValues
              show (if k0 = key then some v0 else dictLookup rest key).getD [] = _
              rw [if_neg h0]]
        · rw [if_neg hk, if_neg hk]
          show _ = (if k0 = k then some v0 else dictLookup rest k)
          rw [if_neg h]

theorem dictValues_dictAppendValue (d : PyDict) (key val k : List Char) :
    dictValues (dictAppendValue d key val) k =
      if k = key then dictValues d k ++ [val] else dictValues d k := by
  unfold dictValues
  rw [dictLookup_dictAppendValue]
  by_cases h : k = key <;> simp [h, dictValues]

theorem dictSizeTotal_dictAppendValue :
    ∀ (d : PyDict) (key val : List Char),
      dictSizeTotal (dictAppendValue d key val) = dictSizeTotal d + 1 := by
  intro d key val
  induction d with
  | nil => simp [dictAppendValue, dictSizeTotal]
  | cons p rest ih =>
    obtain ⟨k0, v0⟩ := p
    show dictSizeTotal
        (if k0 = key then (k0, v0 ++ [val]) :: rest
         else (k0, v0) :: dictAppendValue rest key val) = _
    by_cases h0 : k0 = key
    · rw [if_pos h0]
      simp [dictSizeTotal]
      omega
    · rw [if_neg h0]
      simp only [dictSizeTotal, List.map_cons, List.sum_cons] at ih ⊢
      omega

theorem foldl_dictAppendValue_values (keyf valf : List Char → List Char) :
    ∀ (ts : List (List Char)) (d : PyDict) (k : List Char),
      dictValues (ts.foldl (fun acc t => dictAppendValue acc (keyf t) (valf t)) d) k =
        dictValues d k ++ (ts.filter (fun t => keyf t == k)).map valf := by
  intro ts
  induction ts with
  | nil =>
    intro d k
    simp
  | cons t rest ih =>
    intro d k
    rw [List.foldl_cons, ih, dictValues_dictAppendValue, List.filter_cons]
    by_cases h : k = keyf t
    · rw [if_pos h, if_pos (by simp [h]), List.map_cons, List.append_assoc]
      rfl
    · rw [if_neg h, if_neg (by
        simp only [beq_iff_eq]
        exact fun e => h e.symm)]

theorem foldl_dictAppendValue_size (keyf valf : List Char → List Char) :
    ∀ (ts : List (List Char)) (d : PyDict),
      dictSizeTotal (ts.foldl (fun acc t => dictAppendValue acc (keyf t) (valf t)) d) =
        dictSizeTotal d + ts.length := by
  intro ts
  induction ts with
  | nil =>
    intro d
    simp
  | cons t rest ih =>
    intro d
    rw [List.foldl_cons, ih, dictSizeTotal_dictAppendValue, List.length_cons]
    omega

/-- Claim C2: `generate_test_moduleclass_key_test_function_value_dictionary`
groups each test string's function-name slice under its module-name-slice key:
the list stored under a key is exactly the function-name slices of the input
strings with that module-name slice, in input order with duplicates kept, and
the total number of stored values equals the input length. -/
theorem moduleclass_function_grouping (tests : List (List Char)) :
    (∀ k, dictValues (generate_test_moduleclass_key_test_function_value_dictionary tests) k =
        (tests.filter (fun t => get_test_module_name t == k)).map get_test_function_name) ∧
    dictSizeTotal (generate_test_moduleclass_key_test_function_value_dictionary tests) =
      tests.length := by
  constructor
  · intro k
    exact foldl_dictAppendValue_values get_test_module_name get_test_function_name tests [] k
  · have h := foldl_dictAppendValue_size get_test_module_name get_test_function_name tests []
    simpa [dictSizeTotal] using h

theorem module_class_key_split (k : List Char) (hk : '.' ∈ k) :
    get_test_module_name_from_key k ++ '.' :: get_test_class_name_from_key k = k := by
  obtain ⟨j, hj⟩ := findIdx?_isSome_of_mem hk
  have hlt := findIdx?_some_lt_length hj
  have hget : k[j] = '.' := by
    have h := findIdx?_some_get hj hlt
    simpa [List.get_eq_getElem] using h
  have hmod : get_test_module_name_from_key k = k.take j := by
    unfold get_test_module_name_from_key pyFind
    rw [hj]
    exact pySlice_zero_coe k j
  have hcls : get_test_class_name_from_key k = k.drop (j + 1) := by
    unfold get_test_class_name_from_key pyFind
    rw [hj, show ((j : Int)) + 1 = ((j + 1 : Nat) : Int) from by push_cast; ring]
    exact pySliceFrom_coe k (j + 1)
  rw [hmod, hcls, ← hget, List.get_drop_eq_drop k j hlt, List.take_append_drop]


/-- Claim C8: for keys containing a `'.'`, the module / class slices split the
key at its first `'.'` and reassembling them with `'.'` restores the key, so
`generate_test_module_key_test_moduleclass_value_dictionary` stores, under
each module part, lists whose elements are exactly the original key strings
with that module part, in input order. -/
theorem module_key_reconstruction (l : List (List Char)) (h : ∀ k ∈ l, '.' ∈ k) :
    (∀ k ∈ l, get_test_module_name_from_key k ++ '.' :: get_test_class_name_from_key k = k) ∧
    (∀ m, dictValues (generate_test_module_key_test_moduleclass_value_dictionary l) m =
        l.filter (fun k => get_test_module_name_from_key k == m)) := by
  constructor
  · intro k hkl
    exact module_class_key_split k (h k hkl)
  · intro m
    have hv := foldl_dictAppendValue_values get_test_module_name_from_key
      (fun k => get_test_module_name_from_key k ++ '.' :: get_test_class_name_from_key k) l [] m
    have hall : ∀ a ∈ l.filter (fun k => get_test_module_name_from_key k == m),
        get_test_module_name_from_key a ++ '.' :: get_test_class_name_from_key a = a :=
      fun a ha => module_class_key_split a (h a (List.mem_of_mem_filter ha))
    have hid : (l.filter (fun k => get_test_module_name_from_key k == m)).map
        (fun k => get_test_module_name_from_key k ++ '.' :: get_test_class_name_from_key k) =
        l.filter (fun k => get_test_module_name_from_key k == m) := by
      rw [List.map_congr_left hall]
      exact List.map_id _
    calc dictValues (generate_test_module_key_test_moduleclass_value_dictionary l) m
        = (l.filter (fun k => get_test_module_name_from_key k == m)).map
            (fun k => get_test_module_name_from_key k ++ '.' :: get_test_class_name_from_key k) := hv
      _ = l.filter (fun k => get_test_module_name_from_key k == m) := hid

/-- Witness for C8 at the key list `["m.C", "m.D", "n.E"]`. -/
theorem module_key_reconstruction_witness :
    (∀ k ∈ ([['m', '.', 'C'], ['m', '.', 'D'], ['n', '.', 'E']] : List (List Char)), '.' ∈ k) ∧
    ((∀ k ∈ ([['m', '.', 'C'], ['m', '.', 'D'], ['n', '.', 'E']] : List (List Char)),
        get_test_module_name_from_key k ++ '.' :: get_test_class_name_from_key k = k) ∧
      (∀ m, dictValues (generate_test_module_key_test_moduleclass_value_dictionary
          [['m', '.', 'C'], ['m', '.', 'D'], ['n', '.', 'E']]) m =
        ([['m', '.', 'C'], ['m', '.', 'D'], ['n', '.', 'E']] : List (List Char)).filter
          (fun k => get_test_module_name_from_key k == m))) :=
  ⟨by decide, module_key_reconstruction [['m', '.', 'C'], ['m', '.', 'D'], ['n', '.', 'E']]
    (by decide)⟩

/-- Witness for the amended C3 at the concrete input `"ab (m.C)"`. -/
theorem parse_conventional_witness :
    '(' ∉ ((['a', 'b'] : List Char)) ∧ ')' ∉ ((['a', 'b'] : List Char)) ∧
    '(' ∉ ((['m', '.', 'C'] : List Char)) ∧ ')' ∉ ((['m', '.', 'C'] : List Char)) ∧
    (get_test_module_name (['a', 'b'] ++ ' ' :: '(' :: (['m', '.', 'C'] ++ [')'])) = ['m', '.', 'C'] ∧
      get_test_function_name (['a', 'b'] ++ ' ' :: '(' :: (['m', '.', 'C'] ++ [')'])) = ['a', 'b']) :=
  ⟨by decide, by decide, by decide, by decide,
    parse_conventional ['a', 'b'] ['m', '.', 'C'] (by decide) (by decide) (by decide) (by decide)⟩

theorem create_testcase_list_eq_map :
    ∀ (tcl : List (List Char)) (suite : List Char),
      create_testcase_list tcl suite =
        tcl.map (fun fn => ⟨suite ++ '.' :: fn, [], []⟩) := by
  intro tcl suite
  induction tcl with
  | nil => rfl
  | cons tc rest ih => simp [create_testcase_list, ih]

/-- Claim C1: when every suite name is a key of the dictionary,
`_create_testsuite_testcase_list` builds `{'testsuite': […]}` with one entry
per suite name in list order, each entry carrying `testsuitename` and a
`testcase` list with one `{'testcasename': '<suite>.<function>',
'testresult': '', 'testlog': ''}` per function name in list order, and
`generate_testsuite_testcase_json_data_structure` encodes exactly that
structure. -/
theorem testsuite_testcase_structure (suites : List (List Char)) (d : PyDict)
    (h : ∀ s ∈ suites, (dictLookup d s).isSome = true) :
    create_testsuite_testcase_list suites d =
      some ⟨suites.map (fun s =>
        ⟨s, (dictValues d s).map (fun fn => ⟨s ++ '.' :: fn, [], []⟩)⟩)⟩ ∧
    generate_testsuite_testcase_json_data_structure suites d =
      some (start_encode ⟨suites.map (fun s =>
        ⟨s, (dictValues d s).map (fun fn => ⟨s ++ '.' :: fn, [], []⟩)⟩)⟩) := by
  have hc : create_testsuite_testcase_list suites d =
      some ⟨suites.map (fun s =>
        ⟨s, (dictValues d s).map (fun fn => ⟨s ++ '.' :: fn, [], []⟩)⟩)⟩ := by
    induction suites with
    | nil => rfl
    | cons s rest ih =>
      have hs := h s (by simp)
      obtain ⟨tcl, htcl⟩ := Option.isSome_iff_exists.mp hs
      have hrest := ih (fun x hx => h x (by simp [hx]))
      simp only [create_testsuite_testcase_list, htcl, hrest, List.map_cons]
      rw [create_testcase_list_eq_map]
      simp [dictValues, htcl]
  refine ⟨hc, ?_⟩
  unfold generate_testsuite_testcase_json_data_structure
  rw [hc]
  rfl

/-- Witness for C1 at one suite `"s"` mapped to one function `"f"`. -/
theorem testsuite_testcase_structure_witness :
    (∀ s ∈ ([['s']] : List (List Char)),
        (dictLookup [(['s'], [['f']])] s).isSome = true) ∧
    (create_testsuite_testcase_list [['s']] [(['s'], [['f']])] =
        some ⟨([['s']] : List (List Char)).map (fun s =>
          ⟨s, (dictValues [(['s'], [['f']])] s).map (fun fn => ⟨s ++ '.' :: fn, [], []⟩)⟩)⟩ ∧
      generate_testsuite_testcase_json_data_structure [['s']] [(['s'], [['f']])] =
        some (start_encode ⟨([['s']] : List (List Char)).map (fun s =>
          ⟨s, (dictValues [(['s'], [['f']])] s).map (fun fn => ⟨s ++ '.' :: fn, [], []⟩)⟩)⟩)) :=
  ⟨by decide, testsuite_testcase_structure [['s']] [(['s'], [['f']])] (by decide)⟩

/-- Claim C9: `_create_testsuite_testcase_list` (and hence
`generate_testsuite_testcase_json_data_structure`) succeeds exactly when every
element of the suite list is a key of the dictionary; a missing key raises
`KeyError` (modelled by `none`), with no partial result. -/
theorem create_succeeds_iff_keys (suites : List (List Char)) (d : PyDict) :
    (create_testsuite_testcase_list suites d).isSome =
      suites.all (fun s => (dictLookup d s).isSome) ∧
    (generate_testsuite_testcase_json_data_structure suites d).isSome =
      suites.all (fun s => (dictLookup d s).isSome) := by
  have hc : ∀ ss : List (List Char),
      (create_testsuite_testcase_list ss d).isSome =
        ss.all (fun s => (dictLookup d s).isSome) := by
    intro ss
    induction ss with
    | nil => rfl
    | cons s rest ih =>
      simp only [create_testsuite_testcase_list, List.all_cons]
      cases hs : dictLookup d s with
      | none => simp [hs]
      | some tcl =>
        cases hr : create_testsuite_testcase_list rest d <;> rw [hr] at ih <;>
          simp [hs, ← ih]
  refine ⟨hc suites, ?_⟩
  have h2 := hc suites
  unfold generate_testsuite_testcase_json_data_structure
  cases ho : create_testsuite_testcase_list suites d <;> rw [ho] at h2 <;>
    simp [← h2]

theorem flat_list_eq_dfs_leaves :
    ∀ ts : List TestNode,
      generate_flat_list_of_test_module_function ts = spec_dfs_leaves_list ts := by
  intro ts
  induction ts using generate_flat_list_of_test_module_function.induct with
  | case1 => simp [generate_flat_list_of_test_module_function, spec_dfs_leaves_list]
  | case2 s rest ih =>
    simp [generate_flat_list_of_test_module_function, spec_dfs_leaves_list,
      spec_dfs_leaves, ih]
  | case3 children rest ih1 ih2 =>
    simp [generate_flat_list_of_test_module_function, spec_dfs_leaves_list,
      spec_dfs_leaves, ih1, ih2]

theorem flat_list_all_isnotsuite :
    ∀ ts : List TestNode,
      (generate_flat_list_of_test_module_function ts).all isnotsuite = true := by
  intro ts
  induction ts using generate_flat_list_of_test_module_function.induct with
  | case1 => simp [generate_flat_list_of_test_module_function]
  | case2 s rest ih =>
    simp [generate_flat_list_of_test_module_function, isnotsuite, ih]
  | case3 children rest ih1 ih2 =>
    simp [generate_flat_list_of_test_module_function, ih1, ih2]

/-- Claim C5: `_generate_flat_list_of_test_module_function` yields exactly the
non-suite leaf tests of a finite test tree, in depth-first left-to-right order
(`spec_dfs_leaves_list`), and every yielded node is a non-suite node.  The
recursion terminates on every finite tree: the embedding is a total function. -/
theorem flat_list_dfs_leaves (ts : List TestNode) :
    generate_flat_list_of_test_module_function ts = spec_dfs_leaves_list ts ∧
    (generate_flat_list_of_test_module_function ts).all isnotsuite = true :=
  ⟨flat_list_eq_dfs_leaves ts, flat_list_all_isnotsuite ts⟩

/-- Claim C4: `write_testsuite_testcase_json_data_structure_to_file` appends
`file_content` to the file at `file_path`: afterwards the file holds its
previous contents followed by `file_content`, and the previously stored data
is unchanged (append mode, never truncated). -/
theorem write_appends_to_file (fs : FileSystem) (file_path file_content : List Char) :
    write_testsuite_testcase_json_data_structure_to_file fs file_path file_content file_path =
      fs file_path ++ file_content ∧
    (write_testsuite_testcase_json_data_structure_to_file fs file_path file_content
        file_path).take (fs file_path).length = fs file_path := by
  have h1 : write_testsuite_testcase_json_data_structure_to_file fs file_path file_content
      file_path = fs file_path ++ file_content := by
    unfold write_testsuite_testcase_json_data_structure_to_file pyOpenContents
    rw [if_pos rfl, if_neg (by decide)]
  refine ⟨h1, ?_⟩
  rw [h1]
  exact List.take_left' rfl

/-- Claim C6: per invocation exactly one JSON document is built and written:
`generate_testsuite_testcase_json_data_structure` encodes the whole structure
into a single string (one `start_encode` of the one structure), and the write
helper performs exactly one write event, whose replay is the whole file
effect. -/
theorem single_document_single_write (fs : FileSystem) (p c : List Char)
    (suites : List (List Char)) (d : PyDict) :
    (write_events p c).length = 1 ∧
    apply_write_events fs (write_events p c) =
      write_testsuite_testcase_json_data_structure_to_file fs p c ∧
    generate_testsuite_testcase_json_data_structure suites d =
      (create_testsuite_testcase_list suites d).map start_encode :=
  ⟨rfl, rfl, rfl⟩

/-- Claim C7: `push_testsuite_testcase_json_file_to_git_repo` invokes exactly
one external command, with argument vector
`['oe-git-archive', file_dir, '-g', git_repo]`, returns that command's
completed-process result unchanged, and leaves the file system untouched. -/
theorem push_single_command (fs : FileSystem)
    (subprocess_run : List (List Char) → CompletedProcess)
    (file_dir git_repo : List Char) :
    (push_testsuite_testcase_json_file_to_git_repo fs subprocess_run file_dir git_repo).1 =
      fs ∧
    (push_testsuite_testcase_json_file_to_git_repo fs subprocess_run file_dir git_repo).2.1 =
      subprocess_run ["oe-git-archive".toList, file_dir, "-g".toList, git_repo] ∧
    (push_testsuite_testcase_json_file_to_git_repo fs subprocess_run file_dir git_repo).2.2 =
      [["oe-git-archive".toList, file_dir, "-g".toList, git_repo]] :=
  ⟨rfl, rfl, rfl⟩
